import Mathlib

/-!
Shallow embedding of the csv2ofx.py CSV-to-OFX converter: field-mapping
reader, Amazon order reconciliation index, and the OFX statement serializer,
together with theorems settling the specification claims.

String operations are implemented on the underlying character lists so that
every definition evaluates inside the kernel.
-/

namespace Csv2Ofx

/-- Python exception kinds that the embedded code can raise. -/
inductive PyErr
  | keyError
  | valueError
  | indexError
  | typeError
  | assertError
deriving DecidableEq, Repr

instance {ε α : Type} [DecidableEq ε] [DecidableEq α] :
    DecidableEq (Except ε α) := fun x y =>
  match x, y with
  | .ok a, .ok b =>
    if h : a = b then .isTrue (by rw [h]) else
      .isFalse (by intro hc; cases hc; exact h rfl)
  | .error a, .error b =>
    if h : a = b then .isTrue (by rw [h]) else
      .isFalse (by intro hc; cases hc; exact h rfl)
  | .ok _, .error _ => .isFalse (by intro hc; cases hc)
  | .error _, .ok _ => .isFalse (by intro hc; cases hc)

/-- The fullwidth counterparts of the halfwidth katakana block U+FF61 to
U+FF9D under NFKC, generated from the Unicode data tables.  The voiced
sound marks U+FF9E and U+FF9F, which NFKC composes with a preceding base
character (a many-to-one mapping), are outside the modelled domain. -/
def hwKanaTable : List (Char × Char) :=
  [('｡', '。'), ('｢', '「'), ('｣', '」'),
   ('､', '、'), ('･', '・'), ('ｦ', 'ヲ'),
   ('ｧ', 'ァ'), ('ｨ', 'ィ'), ('ｩ', 'ゥ'),
   ('ｪ', 'ェ'), ('ｫ', 'ォ'), ('ｬ', 'ャ'),
   ('ｭ', 'ュ'), ('ｮ', 'ョ'), ('ｯ', 'ッ'),
   ('ｰ', 'ー'), ('ｱ', 'ア'), ('ｲ', 'イ'),
   ('ｳ', 'ウ'), ('ｴ', 'エ'), ('ｵ', 'オ'),
   ('ｶ', 'カ'), ('ｷ', 'キ'), ('ｸ', 'ク'),
   ('ｹ', 'ケ'), ('ｺ', 'コ'), ('ｻ', 'サ'),
   ('ｼ', 'シ'), ('ｽ', 'ス'), ('ｾ', 'セ'),
   ('ｿ', 'ソ'), ('ﾀ', 'タ'), ('ﾁ', 'チ'),
   ('ﾂ', 'ツ'), ('ﾃ', 'テ'), ('ﾄ', 'ト'),
   ('ﾅ', 'ナ'), ('ﾆ', 'ニ'), ('ﾇ', 'ヌ'),
   ('ﾈ', 'ネ'), ('ﾉ', 'ノ'), ('ﾊ', 'ハ'),
   ('ﾋ', 'ヒ'), ('ﾌ', 'フ'), ('ﾍ', 'ヘ'),
   ('ﾎ', 'ホ'), ('ﾏ', 'マ'), ('ﾐ', 'ミ'),
   ('ﾑ', 'ム'), ('ﾒ', 'メ'), ('ﾓ', 'モ'),
   ('ﾔ', 'ヤ'), ('ﾕ', 'ユ'), ('ﾖ', 'ヨ'),
   ('ﾗ', 'ラ'), ('ﾘ', 'リ'), ('ﾙ', 'ル'),
   ('ﾚ', 'レ'), ('ﾛ', 'ロ'), ('ﾜ', 'ワ'),
   ('ﾝ', 'ン')]

/-- Per-character NFKC compatibility mapping restricted to the character
ranges this development touches: IDEOGRAPHIC SPACE folds to SPACE, the
fullwidth ASCII variants U+FF01 to U+FF5E fold to ASCII, halfwidth
katakana widen to their fullwidth forms, and everything else encountered
here (ASCII, hiragana, standard katakana, CJK ideographs, Greek letters)
is NFKC-invariant and maps to itself. -/
def nfkcChar (c : Char) : Char :=
  if c.toNat = 0x3000 then ' '
  else if 0xFF01 ≤ c.toNat ∧ c.toNat ≤ 0xFF5E then
    Char.ofNat (c.toNat - 0xFEE0)
  else
    match hwKanaTable.find? (fun p => p.1 = c) with
    | some p => p.2
    | none => c

/-- First substitution inside normalize: a halfwidth katakana letter
followed by an ASCII hyphen-minus has the hyphen replaced by the halfwidth
prolonged sound mark U+FF70; matches are non-overlapping and scanning
resumes after each match, as re.sub does. -/
def kanaHyphenSub : List Char → List Char
  | [] => []
  | [c] => [c]
  | c :: d :: rest =>
    if (0xFF67 ≤ c.toNat ∧ c.toNat ≤ 0xFF9C) ∧ d = '-' then
      c :: 'ｰ' :: kanaHyphenSub rest
    else c :: kanaHyphenSub (d :: rest)

/-- Second substitution inside normalize: a fullwidth katakana or hiragana
letter followed by MINUS SIGN U+2212 has the minus replaced by the
prolonged sound mark U+30FC. -/
def kanaMinusSub : List Char → List Char
  | [] => []
  | [c] => [c]
  | c :: d :: rest =>
    if ((0x30A1 ≤ c.toNat ∧ c.toNat ≤ 0x30EF)
        ∨ (0x3041 ≤ c.toNat ∧ c.toNat ≤ 0x308F))
        ∧ d.toNat = 0x2212 then
      c :: 'ー' :: kanaMinusSub rest
    else c :: kanaMinusSub (d :: rest)

/-- Source function normalize: the two prolonged-sound-mark substitutions
followed by unicodedata.normalize("NFKC", s), the latter modelled by the
per-character table nfkcChar over the ranges used in this development.
The second template's backslash-u escape is processed as by the re module
of Python 3.12 and later, the versions on which the source runs at all
(earlier versions reject the escape when compiling the template). -/
def normalize (s : String) : String :=
  String.mk ((kanaMinusSub (kanaHyphenSub s.data)).map nfkcChar)

/-- Python str.split on a single-character separator (the source only splits
on ",", "/" and "-"): "".split(sep) is [""], and separators delimit possibly
empty groups. -/
def splitChar (sep : Char) : List Char → List (List Char)
  | [] => [[]]
  | c :: rest =>
    let r := splitChar sep rest
    if c = sep then [] :: r
    else
      match r with
      | [] => [[c]]
      | g :: gs => (c :: g) :: gs

/-- Python str.strip with no argument: remove leading and trailing
whitespace. -/
def pyStrip (s : String) : String :=
  String.mk
    (((s.data.dropWhile Char.isWhitespace).reverse.dropWhile
        Char.isWhitespace).reverse)

/-- Python str.replace with a nonempty pattern: leftmost non-overlapping
literal replacement; the fuel argument (instantiated with the string length)
only makes the recursion structural. -/
def replaceFuel (pat rep : List Char) : Nat → List Char → List Char
  | 0, l => l
  | _ + 1, [] => []
  | fuel + 1, c :: rest =>
    if pat.length > 0 && List.take pat.length (c :: rest) == pat then
      rep ++ replaceFuel pat rep fuel (List.drop pat.length (c :: rest))
    else c :: replaceFuel pat rep fuel rest

def pyReplace (s pat rep : String) : String :=
  String.mk (replaceFuel pat.data rep.data s.data.length s.data)

/-- Decimal value of a digit list. -/
def digitsToNat (l : List Char) : Nat :=
  l.foldl (fun a c => a * 10 + (c.toNat - 48)) 0

/-- Python int(s) restricted to the optional-minus-then-digits forms that
occur in statement cells; none models ValueError. -/
def pyInt? (s : String) : Option Int :=
  match s.data with
  | [] => none
  | c :: rest =>
    if c = '-' then
      if !rest.isEmpty && rest.all (·.isDigit) then
        some (-(digitsToNat rest : Int))
      else none
    else if (c :: rest).all (·.isDigit) then some (digitsToNat (c :: rest) : Int)
    else none

/-- Source helper n inside Journal.read_csv:
int(normalize(c(f)).replace(",", "") or "0") applied to the already fetched
cell string: strip digit-group separators, an empty cell counts as "0". -/
def parseNumCell (cell : String) : Option Int :=
  let t := pyReplace (normalize cell) "," ""
  pyInt? (if t = "" then "0" else t)

/-- A value of the reverse lookup table built by parse_fielddef: a single
column index, or the accumulated list of indices of a repeated field name. -/
inductive FieldPos
  | one (i : Nat)
  | many (idxs : List Nat)
deriving DecidableEq, Repr

/-- The reverse lookup table itself, an association list in insertion order
(CPython dicts preserve insertion order). -/
abbrev FieldMap := List (String × FieldPos)

/-- Dictionary lookup fields[f]. -/
def FieldMap.find? (m : FieldMap) (k : String) : Option FieldPos :=
  (List.find? (fun p => p.1 = k) m).map (fun p => p.2)

/-- One step of parse_fielddef's loop body: if col in dic, push i onto the
(list-ified) entry; elif col, bind col to i; empty names are ignored. -/
def fmUpdate (dic : List (String × FieldPos)) (col : String) (i : Nat) :
    List (String × FieldPos) :=
  match dic with
  | [] => if col = "" then [] else [(col, .one i)]
  | (k, p) :: rest =>
    if k = col then
      match p with
      | .one j => (k, .many [j, i]) :: rest
      | .many l => (k, .many (l ++ [i])) :: rest
    else (k, p) :: fmUpdate rest col i

/-- Source parse_fielddef: build the field-name-to-position table from the
comma-separated column list, stripping whitespace around each name. -/
def parse_fielddef (cols : String) : FieldMap :=
  ((splitChar ',' cols.data).map (fun l => pyStrip (String.mk l))).enum.foldl
    (fun dic p => fmUpdate dic p.2 p.1) []

/-- Gregorian leap year, as datetime uses. -/
def isLeap (y : Nat) : Bool := y % 4 == 0 && (y % 100 != 0 || y % 400 == 0)

/-- Length of a month, as datetime validates it. -/
def daysInMonth (y m : Nat) : Nat :=
  if m = 2 then (if isLeap y then 29 else 28)
  else if m = 4 ∨ m = 6 ∨ m = 9 ∨ m = 11 then 30
  else 31

/-- Days in year y before the first of month m. -/
def daysBeforeMonth (y m : Nat) : Nat :=
  (List.range (m - 1)).foldl (fun acc i => acc + daysInMonth y (i + 1)) 0

/-- Proleptic Gregorian ordinal of a calendar date, datetime.date.toordinal:
day 1 is 0001-01-01.  Date arithmetic with timedelta(days=k) and date
comparison in the source are ordinal shift and ordinal order. -/
def toOrdinal (y m d : Nat) : Nat :=
  365 * (y - 1) + (y - 1) / 4 - (y - 1) / 100 + (y - 1) / 400
    + daysBeforeMonth y m + d

/-- The tzinfo objects built by the source Timezone class: a zone name and
the stored utcoffset in whole hours (the constructor negates its POSIX-style
argument, so gettimezone("JST-9") stores +9). -/
structure Timezone where
  tzname : String
  utcoffsetHours : Int
deriving DecidableEq, Repr

/-- A datetime.datetime as the source uses it: calendar date, a time of day
(always midnight for parsed statement dates), and an optional tzinfo. -/
structure PyDateTime where
  year : Nat
  month : Nat
  day : Nat
  hour : Nat := 0
  minute : Nat := 0
  second : Nat := 0
  tz : Option Timezone := none
deriving DecidableEq, Repr

def PyDateTime.dateOrdinal (t : PyDateTime) : Nat :=
  toOrdinal t.year t.month t.day

/-- Total key for naive datetime comparison: seconds since the proleptic
epoch.  Injective on valid datetimes, so Python's datetime order coincides
with Nat order of this key. -/
def PyDateTime.tkey (t : PyDateTime) : Nat :=
  t.dateOrdinal * 86400 + t.hour * 3600 + t.minute * 60 + t.second

/-- Naive datetime comparison a <= b (the source never compares aware ones:
the tzinfo attachment at read time is a no-op, see processRow). -/
def pdLe (a b : PyDateTime) : Bool := a.tkey ≤ b.tkey

/-- All characters are ASCII digits and the list is nonempty. -/
def allDigits (l : List Char) : Bool := !l.isEmpty && l.all (·.isDigit)

/-- Year/month/day field validation as strptime performs it: the %Y field is
one to four digits, %m and %d one or two, and the triple must be a valid
calendar date. -/
def mkValidDate (ys ms ds : List Char) : Option PyDateTime :=
  if allDigits ys && ys.length ≤ 4 && allDigits ms && ms.length ≤ 2
      && allDigits ds && ds.length ≤ 2 then
    let y := digitsToNat ys
    let m := digitsToNat ms
    let d := digitsToNat ds
    if 1 ≤ y && 1 ≤ m && m ≤ 12 && 1 ≤ d && d ≤ daysInMonth y m then
      some { year := y, month := m, day := d }
    else none
  else none

/-- Source parse_date on a string: try "%Y/%m/%d", "%Y-%m-%d", "%Y%m%d" in
that order; none models the ValueError("illegal date format"). The
datetime-passthrough branch (isinstance check for the previous-date default)
is handled at the call site in resolveDate. -/
def parse_date (s : String) : Option PyDateTime :=
  (match splitChar '/' s.data with
   | [ys, ms, ds] => mkValidDate ys ms ds
   | _ => none)
  <|> (match splitChar '-' s.data with
   | [ys, ms, ds] => mkValidDate ys ms ds
   | _ => none)
  <|> (if s.data.length = 8 && allDigits s.data then
    mkValidDate (s.data.take 4) ((s.data.drop 4).take 2) (s.data.drop 6)
    else none)

/-- Zero-padded decimal rendering, strftime style. -/
def padNum (n : Nat) (w : Nat) : String :=
  let s := toString n
  String.mk (List.replicate (w - s.data.length) '0') ++ s

/-- The "+.2f"-formatted gmtoffset field of ofxdatetime:
tzinfo.utcoffset().seconds divided by 3600.0.  timedelta .seconds is the
floor-modulo-86400 part, hence nonnegative, so the rendered sign is always
"+"; whole-hour offsets render with ".00" decimals. -/
def fmtOffset (tz : Timezone) : String :=
  let secs : Int := (tz.utcoffsetHours * 3600) % 86400
  "+" ++ toString (secs / 3600) ++ ".00"

/-- Source Journal.ofxdatetime: a naive datetime renders as the bare
YYYYMMDDHHMMSS stamp; an aware one appends the bracketed
UTC-offset-and-zone-name suffix. -/
def ofxdatetime (dt : PyDateTime) : String :=
  let stamp := padNum dt.year 4 ++ padNum dt.month 2 ++ padNum dt.day 2
    ++ padNum dt.hour 2 ++ padNum dt.minute 2 ++ padNum dt.second 2
  match dt.tz with
  | none => stamp
  | some tz => stamp ++ "[" ++ fmtOffset tz ++ ":" ++ tz.tzname ++ "]"

/-! ## East-Asian width and AmazonOrderBatch.omit -/

/-- The East-Asian width classes distinguished by the source: Fullwidth,
Wide, Ambiguous, and everything else (Halfwidth, Narrow, Neutral). -/
inductive EAW
  | F
  | W
  | A
  | Other
deriving DecidableEq, Repr

/-- unicodedata.east_asian_width, restricted to the character ranges that
appear in this development: ASCII is Narrow/Neutral, U+3000 IDEOGRAPHIC
SPACE is Fullwidth, the hiragana and katakana blocks and the CJK Unified
Ideographs are Wide, the Fullwidth Forms are Fullwidth, and the Greek
letters are Ambiguous; halfwidth katakana (U+FF61 onward, past the
Fullwidth Forms range) fall through as Halfwidth, and everything else
encountered here is Neutral - Halfwidth and Neutral both count one
column. -/
def eaw (c : Char) : EAW :=
  if c.toNat < 0x80 then .Other
  else if c.toNat = 0x3000 then .F
  else if 0x3041 ≤ c.toNat ∧ c.toNat ≤ 0x30FF then .W
  else if 0x4E00 ≤ c.toNat ∧ c.toNat ≤ 0x9FFF then .W
  else if 0xFF01 ≤ c.toNat ∧ c.toNat ≤ 0xFF60 then .F
  else if 0x0391 ≤ c.toNat ∧ c.toNat ≤ 0x03C9 then .A
  else .Other

/-- Source charwidth inside omit: (1, 2)[east_asian_width(c) in "FWA"] — a
character whose class is Fullwidth, Wide or AMBIGUOUS counts 2 columns,
anything else counts 1. -/
def charwidthSrc (c : Char) : Nat :=
  match eaw c with
  | .F => 2
  | .W => 2
  | .A => 2
  | .Other => 1

/-- Modelled from the spec: the claim's visual-width unit, "2 units per
character categorized East-Asian Wide/Fullwidth, 1 unit otherwise" — unlike
the source, Ambiguous characters count 1. -/
def charwidthClaim (c : Char) : Nat :=
  match eaw c with
  | .F => 2
  | .W => 2
  | .A => 1
  | .Other => 1

/-- Visual width of a string under the source's width unit. -/
def srcWidth (s : String) : Nat := (s.data.map charwidthSrc).sum

/-- Modelled from the spec: visual width under the claim's width unit. -/
def claimWidth (s : String) : Nat := (s.data.map charwidthClaim).sum

/-- sum(cw[:h]). -/
def sumFirst (cw : List Nat) (h : Nat) : Nat := (cw.take h).sum

/-- sum(cw[t:]) for t = -k: the total width of the last k entries. -/
def sumLast (cw : List Nat) (k : Nat) : Nat := (cw.drop (cw.length - k)).sum

/-- The tail loop of omit: t = -1; while sum(cw[t-1:]) <= maxlen: t -= 1.
Returns -t; the fuel (instantiated with the list length, which the loop can
never exhaust because the total width exceeds maxlen) makes the recursion
structural. -/
def growTail (cw : List Nat) (maxlen : Nat) : Nat → Nat → Nat
  | k, 0 => k
  | k, fuel + 1 =>
    if sumLast cw (k + 1) ≤ maxlen then growTail cw maxlen (k + 1) fuel else k

/-- The head loop of omit: h = 1; while sum(cw[:h+1]) <= maxlen: h += 1. -/
def growHead (cw : List Nat) (maxlen : Nat) : Nat → Nat → Nat
  | h, 0 => h
  | h, fuel + 1 =>
    if sumFirst cw (h + 1) ≤ maxlen then growHead cw maxlen (h + 1) fuel else h

/-- The body of omit after the width list cw has been computed: if the
total width fits, return s unchanged; otherwise grow a tail segment within
(width - 2) / 2, then a head segment within the remaining budget less the
two guaranteed dots, and splice head, exact-filling dots, and tail.  The
slices are taken from the original s while cw was computed from the
normalized, space-replaced text, exactly as in the source. -/
def omitCore (s : String) (width : Nat) (cw : List Nat) : String :=
  if cw.sum ≤ width then s
  else
    let k := growTail cw ((width - 2) / 2) 1 cw.length
    let tailw := sumLast cw k
    let h := growHead cw (width - tailw - 2) 1 cw.length
    let headw := sumFirst cw h
    String.mk (s.data.take h ++ List.replicate (width - headw - tailw) '.'
      ++ s.data.drop (s.data.length - k))

/-- Source AmazonOrderBatch.omit: width-aware truncation.  The width list
is computed over normalize(s) with the ideographic space replaced by an
ASCII space. -/
def omitW (s : String) (width : Nat) : String :=
  omitCore s width
    (((normalize s).data.map (fun c => if c = '　' then ' ' else c)).map
      charwidthSrc)

/-! ## Transactions and the Journal -/

/-- One statement line.  objId models CPython object identity: Transaction
defines neither __eq__ nor __hash__, so set membership compares identity;
every Transaction() call in read_csv yields a fresh object, modelled by
tagging it with the row counter.  fitid is assigned after construction. -/
structure Transaction where
  objId : Nat := 0
  date : PyDateTime
  description : String := "unknown"
  amount : Int := 0
  category : String := "unknown"
  tags : List String := []
  memo : String := ""
  account : String := "unknown"
  status : String := "-"
  tzinfo : Option Timezone := none
  fitid : Nat := 0
deriving DecidableEq, Repr

/-- Bit-identical Python attribute tuples: every Transaction field agrees,
object identity aside. -/
def Transaction.sameFields (t u : Transaction) : Bool :=
  t.date == u.date && t.description == u.description && t.amount == u.amount
    && t.category == u.category && t.tags == u.tags && t.memo == u.memo
    && t.account == u.account && t.status == u.status && t.tzinfo == u.tzinfo
    && t.fitid == u.fitid

/-- set.add on the Journal: Transaction inherits object.__eq__, so a member
is "already present" only when it is the same object (same objId); distinct
objects with equal attribute tuples do not collapse. -/
def Journal.addT (l : List Transaction) (t : Transaction) : List Transaction :=
  if l.any (fun u => u.objId = t.objId) then l else l ++ [t]

/-! ## The Amazon order reconciliation index -/

/-- One purchased line, AmazonOrderItem; only the item name participates in
the omitted display text. -/
structure AmazonOrderItem where
  name : String
  description : String := ""
  price : String := ""
  quantity : String := ""
  amount : String := ""
deriving DecidableEq, Repr

/-- AmazonOrderBatch: an ordered list of item-sets, each an item plus its
add-on items. -/
abbrev AmazonOrderBatch := List (List AmazonOrderItem)

/-- Source AmazonOrderBatch.omitted: item names truncated by omit, joined by
commas inside an item-set and semicolons between item-sets. -/
def batchOmitted (b : AmazonOrderBatch) : String :=
  String.intercalate ";"
    (b.map (fun itemset =>
      String.intercalate "," (itemset.map (fun it => omitW it.name 40))))

/-- One charge event row: the (chargeDate, chargeAmount, chargeMethod)
string triple exactly as stored by AmazonOrder.ccc. -/
structure Charge where
  dateStr : String
  amountStr : String
  method : String
deriving DecidableEq, Repr

/-- AmazonOrder: the batches appended so far and the charge list. -/
structure AmazonOrder where
  orderid : String
  batches : List AmazonOrderBatch
  charges : List Charge
deriving DecidableEq, Repr

/-- AmazonJournal.values() in insertion order. -/
abbrev AmazonJournal := List AmazonOrder

/-- The date argument of AmazonJournal.search: absent, a single date
(modelled by its ordinal), or an explicit inclusive window. -/
inductive DateArg
  | noDate
  | single (ord : Nat)
  | range (lo hi : Nat)
deriving DecidableEq, Repr

/-- Window normalization at the top of search: a plain date d becomes the
inclusive window [d - timedelta(days=1), d + timedelta(days=2)]. -/
def searchWindow : DateArg → Option (Nat × Nat)
  | .noDate => none
  | .single d => some (d - 1, d + 2)
  | .range lo hi => some (lo, hi)

/-- Per-charge evaluation inside the search loop: chargedate =
parse_date(charge[0]).date(), chargeamount = int(charge[1]); a malformed
charge raises ValueError. -/
def chargeEval (ch : Charge) : Except PyErr (Nat × Int) :=
  match parse_date ch.dateStr with
  | none => .error .valueError
  | some d =>
    match pyInt? ch.amountStr with
    | none => .error .valueError
    | some v => .ok (d.dateOrdinal, v)

/-- The search filter condition on one evaluated charge. -/
def chargeHit (win : Option (Nat × Nat)) (amt : Option Int)
    (cd : Nat) (ca : Int) : Bool :=
  (match win with
   | none => true
   | some w => decide (w.1 ≤ cd) && decide (cd ≤ w.2))
  && (match amt with
      | none => true
      | some a => a == ca)

/-- The inner loop of search over one order's enumerated charge list: every
charge is evaluated (so malformed ones raise even when they do not match),
a matching charge at index i contributes (orderid, order[i].omitted()), and
order[i] raises IndexError when the order has fewer batches than charges. -/
def searchCharges (oid : String) (batches : List AmazonOrderBatch)
    (win : Option (Nat × Nat)) (amt : Option Int) :
    List (Nat × Charge) → Except PyErr (List (String × String))
  | [] => .ok []
  | (i, ch) :: rest =>
    match chargeEval ch with
    | .error e => .error e
    | .ok (cd, ca) =>
      if chargeHit win amt cd ca then
        match batches.get? i with
        | some b =>
          match searchCharges oid batches win amt rest with
          | .error e => .error e
          | .ok tail => .ok ((oid, batchOmitted b) :: tail)
        | none => .error .indexError
      else searchCharges oid batches win amt rest

/-- Search results contributed by a single order. -/
def AmazonOrder.searchOne (o : AmazonOrder) (win : Option (Nat × Nat))
    (amt : Option Int) : Except PyErr (List (String × String)) :=
  searchCharges o.orderid o.batches win amt o.charges.enum

/-- The outer loop of search over every order, appending in order. -/
def searchOrders (win : Option (Nat × Nat)) (amt : Option Int) :
    AmazonJournal → Except PyErr (List (String × String))
  | [] => .ok []
  | o :: rest =>
    match o.searchOne win amt with
    | .error e => .error e
    | .ok xs =>
      match searchOrders win amt rest with
      | .error e => .error e
      | .ok ys => .ok (xs ++ ys)

/-- Source AmazonJournal.search. -/
def AmazonJournal.search (az : AmazonJournal) (date : DateArg)
    (amt : Option Int) : Except PyErr (List (String × String)) :=
  searchOrders (searchWindow date) amt az

/-! ## Journal.read_csv row processing -/

/-- REFERENCE MARK, the reserved glyph opening annotation-only rows. -/
def REFMARK : String := "※"

/-- Reader configuration: the slice of read_csv's parameters that affects
row processing. -/
structure ReadCfg where
  accounttype : String := "credit"
  fields : FieldMap
  tzinfo : Option Timezone := none
  amazon : Option AmazonJournal := none
  subst : Option (List (String × String)) := none

/-- datefield = [f for f in fields if f in ("date", "date?")][0]. -/
def datefield? (m : FieldMap) : Option String :=
  (m.map (fun p => p.1)).find? (fun f => f == "date" || f == "date?")

/-- line[i]: IndexError when the row is ragged. -/
def getCell (line : List String) (i : Nat) : Except PyErr String :=
  match line.get? i with
  | some s => .ok s
  | none => .error .indexError

/-- Python str.rstrip("?"). -/
def stripTrailingQ (s : String) : String :=
  String.mk (s.data.reverse.dropWhile (fun c => c = '?')).reverse

/-- Does the string end with '?'. -/
def endsWithQ (s : String) : Bool :=
  match s.data.reverse with
  | [] => false
  | c :: _ => c = '?'

/-- The helper c(f) for a plain (non-optional) field name:
normalize(line[fields[f]]); KeyError when f is unmapped, TypeError when the
field name was repeated (line[list] is not indexable). -/
def cSingle (fields : FieldMap) (line : List String) (f : String) :
    Except PyErr String :=
  match fields.find? f with
  | none => .error .keyError
  | some (.one i) =>
    match getCell line i with
    | .ok s => .ok (normalize s)
    | .error e => .error e
  | some (.many _) => .error .typeError

/-- Resolution of the date cell, c(datefield, defval=prev_date) followed by
parse_date.  For an optional field the helper looks up
fields[f.rstrip("?")] — the stripped name, which the mapping built from the
literal column string does not contain, so the lookup raises KeyError; an
empty optional cell would fall back to the previous row's date. -/
def resolveDate (fields : FieldMap) (line : List String) (datefield : String)
    (prev : PyDateTime) : Except PyErr PyDateTime :=
  if endsWithQ datefield then
    match fields.find? (stripTrailingQ datefield) with
    | none => .error .keyError
    | some (.one i) =>
      match getCell line i with
      | .error e => .error e
      | .ok cell =>
        let cell := normalize cell
        if cell = "" then .ok prev
        else
          match parse_date cell with
          | some d => .ok d
          | none => .error .valueError
    | some (.many _) => .error .typeError
  else
    match cSingle fields line datefield with
    | .error e => .error e
    | .ok cell =>
      match parse_date cell with
      | some d => .ok d
      | none => .error .valueError

/-- The helper n(f): int of the normalized, comma-stripped cell, with an
empty cell counting as zero; ValueError when the cell is not numeric. -/
def nField (fields : FieldMap) (line : List String) (f : String) :
    Except PyErr Int :=
  match cSingle fields line f with
  | .error e => .error e
  | .ok cell =>
    match parseNumCell cell with
    | some v => .ok v
    | none => .error .valueError

/-- Amount derivation, lines 398-407 of the source: policy 1 tries
abs(n("+amount")) - abs(n("-amount")) and a KeyError (either field
unmapped) falls through to policy 2, n("amount") negated for the credit
account type; a further KeyError falls through to policy 3, n("-amount")
guarded by assert accounttype == "credit".  Non-KeyError failures
propagate. -/
def deriveAmount (fields : FieldMap) (line : List String)
    (accounttype : String) : Except PyErr Int :=
  let policy1 : Except PyErr Int :=
    match nField fields line "+amount" with
    | .error e => .error e
    | .ok p =>
      match nField fields line "-amount" with
      | .error e => .error e
      | .ok m => .ok ((p.natAbs : Int) - (m.natAbs : Int))
  match policy1 with
  | .ok v => .ok v
  | .error .keyError =>
    (match nField fields line "amount" with
     | .ok v => .ok (if accounttype = "credit" then -v else v)
     | .error .keyError =>
       (match nField fields line "-amount" with
        | .ok v =>
          if accounttype = "credit" then .ok v else .error .assertError
        | .error e => .error e)
     | .error e => .error e)
  | .error e => .error e

/-- Memo composition: a repeated memo field joins the non-empty raw cells
with commas; a single memo field is the normalized cell; no memo field
yields "". -/
def memoField (fields : FieldMap) (line : List String) :
    Except PyErr String :=
  match fields.find? "memo" with
  | none => .ok ""
  | some (.many idxs) =>
    match idxs.mapM (getCell line) with
    | .error e => .error e
    | .ok cells => .ok (String.intercalate "," (cells.filter (fun c => c ≠ "")))
  | some (.one _) => cSingle fields line "memo"

/-- re.sub(" +", " ", s): collapse runs of ASCII spaces. -/
def collapseSpaces (s : String) : String :=
  String.mk
    ((s.data.foldl
      (fun (acc : List Char × Bool) c =>
        if c = ' ' then (if acc.2 then acc else (' ' :: acc.1, true))
        else (c :: acc.1, false))
      ([], false)).1.reverse)

/-- The aggregator reconciliation step, lines 418-426: for a transaction
whose description is exactly "AMAZON.CO.JP", search the index with the
transaction date and the sign-flipped amount; rewrite memo only when
exactly one pair comes back (otherwise only a warning is printed). -/
def amazonFix (az : Option AmazonJournal) (date : PyDateTime) (amount : Int)
    (description memo : String) : Except PyErr String :=
  match az with
  | none => .ok memo
  | some az' =>
    if description = "AMAZON.CO.JP" then
      match az'.search (.single date.dateOrdinal) (some (-amount)) with
      | .error e => .error e
      | .ok txns =>
        match txns with
        | [p] => .ok p.2
        | _ => .ok memo
    else .ok memo

/-- The substitution-table loop, lines 428-430: for every pair the source
evaluates t.memo.replace(k, v) and DISCARDS the result (str.replace returns
a new string and nothing is assigned), so the memo is left unchanged. -/
def substStep (subst : Option (List (String × String))) (memo : String) :
    String :=
  match subst with
  | none => memo
  | some _ => memo

/-- Modelled from the spec: what the substitution table is specified to do —
apply each key-to-value literal replacement to the memo in table order. -/
def substSpecified (table : List (String × String)) (memo : String) :
    String :=
  table.foldl (fun m kv => pyReplace m kv.1 kv.2) memo

/-- Strip a duplicated description prefix from memo, lines 432-435. -/
def stripDupDescription (description memo : String) : String :=
  let dlen := description.data.length
  if memo.data.take dlen == description.data
      && (memo.data.drop dlen).take 1 == [','] then
    String.mk (memo.data.drop (dlen + 1))
  else memo

/-- Processing of one data row, the body of the read_csv loop, without the
final fitid assignment (the row counter feeds nothing else).  .ok none is
a skipped row (continue); errors abort the whole read.  The statement
t.date.replace(tzinfo=tzinfo) on line 396 discards its result — replace
returns a new datetime — so the stored date keeps tz = none whatever
cfg.tzinfo is. -/
def processRowCore (cfg : ReadCfg) (datefield : String) (prev : PyDateTime)
    (line : List String) : Except PyErr (Option Transaction) :=
  match resolveDate cfg.fields line datefield prev with
  | .error .valueError => .ok none
  | .error e => .error e
  | .ok date =>
    match cSingle cfg.fields line "description" with
    | .error e => .error e
    | .ok description =>
      match deriveAmount cfg.fields line cfg.accounttype with
      | .error e => .error e
      | .ok amount =>
        match memoField cfg.fields line with
        | .error e => .error e
        | .ok memo =>
          let description := collapseSpaces description
          let memo := collapseSpaces memo
          match amazonFix cfg.amazon date amount description memo with
          | .error e => .error e
          | .ok memo =>
            let memo := substStep cfg.subst memo
            let memo := stripDupDescription description memo
            match cfg.fields.find? "commission" with
            | some _ =>
              if description = ""
                  || description.data.take 1 == REFMARK.data then
                .ok none
              else if amount = 0 then
                match nField cfg.fields line "commission" with
                | .error e => .error e
                | .ok cv =>
                  .ok (some
                    { date := date, description := description,
                      amount := -cv, memo := memo })
              else
                .ok (some
                  { date := date, description := description,
                    amount := amount, memo := memo })
            | none =>
              .ok (some
                { date := date, description := description,
                  amount := amount, memo := memo })

/-- One data row including the t.fitid = i assignment (i is the enumerate
counter, also standing in for the fresh object's identity). -/
def processRow (cfg : ReadCfg) (datefield : String) (prev : PyDateTime)
    (i : Nat) (line : List String) : Except PyErr (Option Transaction) :=
  match processRowCore cfg datefield prev line with
  | .error e => .error e
  | .ok none => .ok none
  | .ok (some t) => .ok (some { t with objId := i, fitid := i })

/-- The enumerate loop of read_csv over the data rows: i counts every row,
skipped or not; prev_date is updated only on accepted rows. -/
def readLoop (cfg : ReadCfg) (df : String) :
    Nat → PyDateTime → List Transaction → List (List String) →
    Except PyErr (List Transaction)
  | _, _, acc, [] => .ok acc
  | i, prev, acc, line :: rest =>
    match processRow cfg df prev i line with
    | .error e => .error e
    | .ok none => readLoop cfg df (i + 1) prev acc rest
    | .ok (some t) => readLoop cfg df (i + 1) t.date (Journal.addT acc t) rest

/-- Journal.read_csv restricted to the data rows (header skipping and the
card-number/name header parse happen before the loop): prev_date starts at
datetime(2000, 1, 1), and a mapping with no date field raises at the
datefield selection. -/
def readRows (cfg : ReadCfg) (lines : List (List String)) :
    Except PyErr (List Transaction) :=
  match datefield? cfg.fields with
  | none => .error .indexError
  | some df => readLoop cfg df 0 { year := 2000, month := 1, day := 1 } [] lines

/-! ## Journal.write_ofx -/

/-- One rendered STMTTRN block, field for field from the TRANSACTION
template. -/
structure TxnBlock where
  transactiontype : String
  datetime : String
  amount : Int
  fitid : Nat
  description : String
  memo : String
deriving DecidableEq, Repr

/-- The whole rendered OFX document: header fields, transaction blocks in
order, footer balance. -/
structure OfxDoc where
  dtserver : String
  cardname : String
  cardnumber : String
  firstdate : String
  lastdate : String
  blocks : List TxnBlock
  totalamount : Int
deriving DecidableEq, Repr

/-- A journal after read_csv: the transaction set plus run metadata. -/
structure Journal where
  txns : List Transaction
  cardnumber : String := ""
  cardname : String := ""
  datetime : PyDateTime
deriving DecidableEq, Repr

/-- Outcome of write_ofx: silently no file for an empty journal, a
ValueError from min()/max() of an empty filtered subset, or the document. -/
inductive WriteResult
  | noFile
  | err (e : PyErr)
  | wrote (doc : OfxDoc)
deriving DecidableEq, Repr

/-- in_period: inclusive window test with optional bounds. -/
def in_period (sd ed : Option PyDateTime) (d : PyDateTime) : Bool :=
  (match sd with | none => true | some s => pdLe s d)
  && (match ed with | none => true | some e => pdLe d e)

/-- The output filter of write_ofx: non-zero amount and in the window. -/
def writeFilter (sd ed : Option PyDateTime) (t : Transaction) : Bool :=
  t.amount != 0 && in_period sd ed t.date

/-- Python min over a nonempty sequence: the first minimal element. -/
def pyMinD : List PyDateTime → Option PyDateTime
  | [] => none
  | d :: rest => some (rest.foldl (fun a b => if pdLe a b then a else b) d)

/-- Python max over a nonempty sequence: the first maximal element. -/
def pyMaxD : List PyDateTime → Option PyDateTime
  | [] => none
  | d :: rest => some (rest.foldl (fun a b => if pdLe b a then a else b) d)

/-- str.upper / identity, the xcase helper. -/
def xcase (upper : Bool) (s : String) : String :=
  if upper then String.mk (s.data.map Char.toUpper) else s

/-- One STMTTRN block from a transaction, as formatted by write_ofx. -/
def mkBlock (upper : Bool) (t : Transaction) : TxnBlock :=
  { transactiontype := if 0 ≤ t.amount then "CREDIT" else "DEBIT",
    datetime := ofxdatetime t.date,
    amount := (t.amount.natAbs : Int),
    fitid := t.fitid,
    description := xcase upper (normalize t.description),
    memo := normalize t.memo }

/-- The fitid key order used by subset.sort. -/
def fitidLe (a b : Transaction) : Prop := a.fitid ≤ b.fitid

instance : DecidableRel fitidLe := fun a b => Nat.decLe a.fitid b.fitid

instance : IsTotal Transaction fitidLe :=
  ⟨fun a b => Nat.le_total a.fitid b.fitid⟩

instance : IsTrans Transaction fitidLe :=
  ⟨fun _ _ _ h h' => Nat.le_trans h h'⟩

/-- Source Journal.write_ofx with already-parsed optional bounds: no file
when the journal is empty; filter to non-zero amounts inside the window,
sort by fitid, and render header (with min/max dates of the subset),
blocks, and footer (with the amount sum); min and max raise ValueError when
the filtered subset is empty.  List.insertionSort is a stable sort, hence
it agrees with Python's stable list.sort on the fitid key. -/
def write_ofx (j : Journal) (upper : Bool) (sd ed : Option PyDateTime) :
    WriteResult :=
  if j.txns.length < 1 then .noFile
  else
    let subset := List.insertionSort fitidLe (j.txns.filter (writeFilter sd ed))
    match pyMinD (subset.map (fun t => t.date)),
        pyMaxD (subset.map (fun t => t.date)) with
    | some lo, some hi =>
      .wrote
        { dtserver := ofxdatetime j.datetime,
          cardname := j.cardname,
          cardnumber := j.cardnumber,
          firstdate := ofxdatetime lo,
          lastdate := ofxdatetime hi,
          blocks := subset.map (mkBlock upper),
          totalamount := (subset.map (fun t => t.amount)).sum }
    | _, _ => .err .valueError

/-! ## Auxiliary predicates used in theorem statements -/

/-- The field is mapped to exactly one column. -/
def mappedOneB (fields : FieldMap) (f : String) : Bool :=
  match fields.find? f with
  | some (.one _) => true
  | _ => false

def exOkInt : Except PyErr Int → Bool
  | .ok _ => true
  | .error _ => false

/-- An amount-deriving field is either unmapped, or mapped to a single
column whose cell parses as a number. -/
def amtFieldOkB (fields : FieldMap) (line : List String) (f : String) : Bool :=
  match fields.find? f with
  | none => true
  | some (.one _) => exOkInt (nField fields line f)
  | some (.many _) => false

def chargeEvalOkB (ch : Charge) : Bool :=
  match chargeEval ch with
  | .ok _ => true
  | .error _ => false

/-- An order on which search cannot raise: every charge parses and the
order has at least as many batches as charges. -/
def orderSearchableB (o : AmazonOrder) : Bool :=
  decide (o.charges.length ≤ o.batches.length)
    && o.charges.all chargeEvalOkB

/-! ## Concrete fixtures -/

def c1fields : FieldMap := parse_fielddef "date,description,+amount,-amount"

def c1line : List String := ["2023/01/05", "Shop", "1,234", ""]

def exT1 : Transaction :=
  { objId := 0, date := { year := 2023, month := 1, day := 5 },
    description := "A", amount := 1000, fitid := 0 }

def exT2 : Transaction :=
  { objId := 1, date := { year := 2023, month := 1, day := 7 },
    description := "B", amount := -500, fitid := 1 }

def exJournal : Journal :=
  { txns := [exT1, exT2], datetime := { year := 2023, month := 2, day := 1 } }

/-- The document write_ofx produces for exJournal. -/
def exDoc : OfxDoc :=
  { dtserver := "20230201000000", cardname := "", cardnumber := "",
    firstdate := "20230105000000", lastdate := "20230107000000",
    blocks := [mkBlock false exT1, mkBlock false exT2],
    totalamount := 500 }

/-- A journal whose only transaction has amount zero. -/
def zeroJournal : Journal :=
  { txns := [{ objId := 0, date := { year := 2023, month := 1, day := 5 },
               description := "Z", amount := 0, fitid := 0 }],
    datetime := { year := 2023, month := 2, day := 1 } }

def c3az : AmazonJournal :=
  [{ orderid := "250-1", batches := [[[{ name := "Widget" }]]],
     charges := [{ dateStr := "2023/03/11", amountStr := "1200",
                   method := "Visa" }] }]

def c3date : PyDateTime := { year := 2023, month := 3, day := 10 }

def c4cfg : ReadCfg :=
  { accounttype := "bank", fields := parse_fielddef "date,description,amount" }

def c4lines : List (List String) :=
  [["2023/01/05", "A", "100"], ["bad", "B", "200"], ["2023/01/07", "C", "300"]]

def c5t1 : Transaction :=
  { objId := 0, date := { year := 2023, month := 1, day := 5 },
    description := "A", amount := 100, memo := "m", fitid := 7 }

def c5t2 : Transaction := { c5t1 with objId := 1 }

def c6cfg : ReadCfg :=
  { accounttype := "bank",
    fields := parse_fielddef "date,description,amount,memo",
    subst := some [("FOO", "BAR")] }

def c6lines : List (List String) := [["2023/01/05", "Shop", "100", "FOO"]]

def c7cfg : ReadCfg :=
  { accounttype := "bank", fields := parse_fielddef "date?,description,amount" }

def jst : Timezone := { tzname := "JST", utcoffsetHours := 9 }

def c9cfg : ReadCfg :=
  { accounttype := "credit", fields := parse_fielddef "date,description,amount",
    tzinfo := some jst }

def c9lines : List (List String) := [["2023/01/05", "Shop", "100"]]

/-- Twenty-one Greek alphas: Ambiguous width, so the claim counts 21 units
while the source counts 42. -/
def alpha21 : String := String.mk (List.replicate 21 'α')

/-- Forty-one ideographic spaces: replaced by ASCII spaces before width
computation, but spliced into the output unreplaced. -/
def ideo41 : String := String.mk (List.replicate 41 '　')

/-- Thirty hiragana, total width 60. -/
def hira30 : String := String.mk (List.replicate 30 'あ')

/-- Twenty-five halfwidth katakana: East-Asian Halfwidth, so both the
claim's and the code's width unit count them 1 as written, but NFKC
widens each to a fullwidth (Wide) katakana before omit measures them. -/
def kata25 : String := String.mk (List.replicate 25 'ｱ')

/-- Modelled from the spec: dense means consecutive with no gaps — every
entry is its predecessor plus one. -/
def denseB : List Nat → Bool
  | [] => true
  | [_] => true
  | a :: b :: rest => b == a + 1 && denseB (b :: rest)

/-- The transactions read from c4lines: the middle row is skipped, its
index is not. -/
def c4out : List Transaction :=
  [{ objId := 0, date := { year := 2023, month := 1, day := 5 },
     description := "A", amount := 100, fitid := 0 },
   { objId := 2, date := { year := 2023, month := 1, day := 7 },
     description := "C", amount := 300, fitid := 2 }]

example : parse_date "2023/01/05" = some { year := 2023, month := 1, day := 5 } := by
  decide

example : ofxdatetime { year := 2023, month := 1, day := 5 } = "20230105000000" := by
  decide

example :
    ofxdatetime { year := 2023, month := 1, day := 5, tz := some ⟨"JST", 9⟩ }
      = "20230105000000[+9.00:JST]" := by
  decide

example : parseNumCell "1,234" = some 1234 := by decide

example : parseNumCell "" = some 0 := by decide

example :
    parse_fielddef "date,description,+amount,-amount"
      = [("date", .one 0), ("description", .one 1), ("+amount", .one 2),
         ("-amount", .one 3)] := by
  decide

/-! ## Claim C1: amount-policy selection -/

lemma nField_of_find_none (fields : FieldMap) (line : List String)
    (f : String) (h : fields.find? f = none) :
    nField fields line f = .error .keyError := by
  simp [nField, cSingle, h]

lemma find_none_of_mappedOne_false (fields : FieldMap) (line : List String)
    (f : String) (hok : amtFieldOkB fields line f = true)
    (h : mappedOneB fields f = false) : fields.find? f = none := by
  unfold amtFieldOkB at hok
  unfold mappedOneB at h
  cases hfind : fields.find? f with
  | none => rfl
  | some p =>
    cases p with
    | one i => rw [hfind] at h; simp at h
    | many l => rw [hfind] at hok; simp at hok

lemma nField_ok_of_mappedOne_true (fields : FieldMap) (line : List String)
    (f : String) (hok : amtFieldOkB fields line f = true)
    (h : mappedOneB fields f = true) :
    ∃ v, nField fields line f = .ok v := by
  unfold amtFieldOkB at hok
  cases hfind : fields.find? f with
  | none => unfold mappedOneB at h; rw [hfind] at h; simp at h
  | some p =>
    cases p with
    | one i =>
      rw [hfind] at hok
      cases he : nField fields line f with
      | ok v => exact ⟨v, rfl⟩
      | error e => rw [he] at hok; simp [exOkInt] at hok
    | many l => rw [hfind] at hok; simp at hok

/-- C1: amount-policy selection from the set of mapped field names.  With
both +amount and -amount mapped, the amount is abs minus abs; otherwise
with amount mapped, the parsed value negated exactly for the credit
account type; otherwise with only -amount mapped, the parsed value
directly, but only the credit account type survives the assertion.
Numeric cells have digit-group separators stripped and an empty cell
parses as zero. -/
theorem C1_amount_policy (fields : FieldMap) (line : List String)
    (acct : String)
    (hp : amtFieldOkB fields line "+amount" = true)
    (hm : amtFieldOkB fields line "-amount" = true)
    (ha : amtFieldOkB fields line "amount" = true) :
    (mappedOneB fields "+amount" = true → mappedOneB fields "-amount" = true →
      ∃ pv mv, nField fields line "+amount" = .ok pv
        ∧ nField fields line "-amount" = .ok mv
        ∧ deriveAmount fields line acct
            = .ok ((pv.natAbs : Int) - (mv.natAbs : Int)))
    ∧ ((mappedOneB fields "+amount" = false
          ∨ mappedOneB fields "-amount" = false) →
      mappedOneB fields "amount" = true →
      ∃ v, nField fields line "amount" = .ok v
        ∧ deriveAmount fields line acct
            = .ok (if acct = "credit" then -v else v))
    ∧ (mappedOneB fields "+amount" = false →
      mappedOneB fields "amount" = false →
      mappedOneB fields "-amount" = true →
      ∃ v, nField fields line "-amount" = .ok v
        ∧ (acct = "credit" → deriveAmount fields line acct = .ok v)
        ∧ (acct ≠ "credit" →
            deriveAmount fields line acct = .error .assertError))
    ∧ parseNumCell "1,234" = some 1234 ∧ parseNumCell "" = some 0 := by
  refine ⟨?_, ?_, ?_, by decide, by decide⟩
  · intro hmp hmm
    obtain ⟨pv, hpv⟩ := nField_ok_of_mappedOne_true fields line "+amount" hp hmp
    obtain ⟨mv, hmv⟩ := nField_ok_of_mappedOne_true fields line "-amount" hm hmm
    exact ⟨pv, mv, hpv, hmv, by simp [deriveAmount, hpv, hmv]⟩
  · intro hdisj hmamt
    obtain ⟨v, hv⟩ := nField_ok_of_mappedOne_true fields line "amount" ha hmamt
    by_cases hmp : mappedOneB fields "+amount" = true
    · have hmm : mappedOneB fields "-amount" = false := by
        rcases hdisj with h1 | h2
        · rw [hmp] at h1; cases h1
        · exact h2
      obtain ⟨pv, hpv⟩ :=
        nField_ok_of_mappedOne_true fields line "+amount" hp hmp
      have hmke :=
        nField_of_find_none fields line "-amount"
          (find_none_of_mappedOne_false fields line "-amount" hm hmm)
      exact ⟨v, hv, by simp [deriveAmount, hpv, hmke, hv]⟩
    · have hpke :=
        nField_of_find_none fields line "+amount"
          (find_none_of_mappedOne_false fields line "+amount" hp
            (Bool.not_eq_true _ ▸ Bool.of_not_eq_true hmp))
      exact ⟨v, hv, by simp [deriveAmount, hpke, hv]⟩
  · intro hmp hmamt hmm
    obtain ⟨v, hv⟩ := nField_ok_of_mappedOne_true fields line "-amount" hm hmm
    have hpke :=
      nField_of_find_none fields line "+amount"
        (find_none_of_mappedOne_false fields line "+amount" hp hmp)
    have hake :=
      nField_of_find_none fields line "amount"
        (find_none_of_mappedOne_false fields line "amount" ha hmamt)
    refine ⟨v, hv, ?_, ?_⟩
    · intro hc; simp [deriveAmount, hpke, hake, hv, hc]
    · intro hc; simp [deriveAmount, hpke, hake, hv, hc]

/-- C1 witness: separate plus-amount and minus-amount columns holding
1,234 and an empty
cell derive amount 1234. -/
theorem C1_amount_policy_witness :
    deriveAmount c1fields c1line "credit" = .ok 1234 := by
  obtain ⟨pv, mv, hpv, hmv, hres⟩ :=
    (C1_amount_policy c1fields c1line "credit" (by decide) (by decide)
      (by decide)).1 (by decide) (by decide)
  have h1 : nField c1fields c1line "+amount" = .ok 1234 := by decide
  have h2 : nField c1fields c1line "-amount" = .ok 0 := by decide
  have hpv' : (1234 : Int) = pv := Except.ok.inj (h1.symm.trans hpv)
  have hmv' : (0 : Int) = mv := Except.ok.inj (h2.symm.trans hmv)
  rw [hres, ← hpv', ← hmv']
  decide

/-! ## Claim C2: serialization -/

lemma pdLe_refl (a : PyDateTime) : pdLe a a = true := by
  simp [pdLe]

lemma pdLe_trans {a b c : PyDateTime} (h1 : pdLe a b = true)
    (h2 : pdLe b c = true) : pdLe a c = true := by
  simp only [pdLe, decide_eq_true_eq] at *
  omega

lemma pdLe_total (a b : PyDateTime) : pdLe a b = true ∨ pdLe b a = true := by
  simp only [pdLe, decide_eq_true_eq]
  omega

lemma foldlMin_mem (l : List PyDateTime) :
    ∀ d, l.foldl (fun a b => if pdLe a b then a else b) d ∈ d :: l := by
  induction l with
  | nil => intro d; simp
  | cons b l ih =>
    intro d
    simp only [List.foldl_cons]
    rcases List.mem_cons.mp (ih (if pdLe d b then d else b)) with h | h
    · rw [h]
      by_cases hdb : pdLe d b = true <;> simp [hdb]
    · simp [List.mem_cons.mpr (Or.inr h)]

lemma foldlMin_le (l : List PyDateTime) :
    ∀ d x, x ∈ d :: l →
      pdLe (l.foldl (fun a b => if pdLe a b then a else b) d) x = true := by
  induction l with
  | nil =>
    intro d x hx
    rcases List.mem_singleton.mp hx with rfl
    exact pdLe_refl x
  | cons b l ih =>
    intro d x hx
    simp only [List.foldl_cons]
    have hmd : pdLe (if pdLe d b then d else b) d = true := by
      by_cases hdb : pdLe d b = true
      · simp [hdb, pdLe_refl]
      · simp only [hdb, if_false]
        rcases pdLe_total d b with h | h
        · exact absurd h hdb
        · exact h
    have hmb : pdLe (if pdLe d b then d else b) b = true := by
      by_cases hdb : pdLe d b = true
      · simp [hdb]
      · simp [hdb, pdLe_refl]
    have hhead :=
      ih (if pdLe d b then d else b) _
        (List.mem_cons_self (if pdLe d b then d else b) l)
    rcases List.mem_cons.mp hx with rfl | hx'
    · exact pdLe_trans hhead hmd
    rcases List.mem_cons.mp hx' with rfl | hx''
    · exact pdLe_trans hhead hmb
    · exact ih (if pdLe d b then d else b) x (List.mem_cons_of_mem _ hx'')

lemma foldlMax_mem (l : List PyDateTime) :
    ∀ d, l.foldl (fun a b => if pdLe b a then a else b) d ∈ d :: l := by
  induction l with
  | nil => intro d; simp
  | cons b l ih =>
    intro d
    simp only [List.foldl_cons]
    rcases List.mem_cons.mp (ih (if pdLe b d then d else b)) with h | h
    · rw [h]
      by_cases hdb : pdLe b d = true <;> simp [hdb]
    · simp [List.mem_cons.mpr (Or.inr h)]

lemma foldlMax_ge (l : List PyDateTime) :
    ∀ d x, x ∈ d :: l →
      pdLe x (l.foldl (fun a b => if pdLe b a then a else b) d) = true := by
  induction l with
  | nil =>
    intro d x hx
    rcases List.mem_singleton.mp hx with rfl
    exact pdLe_refl x
  | cons b l ih =>
    intro d x hx
    simp only [List.foldl_cons]
    have hmd : pdLe d (if pdLe b d then d else b) = true := by
      by_cases hdb : pdLe b d = true
      · simp [hdb, pdLe_refl]
      · simp only [hdb, if_false]
        rcases pdLe_total d b with h | h
        · exact h
        · exact absurd h hdb
    have hmb : pdLe b (if pdLe b d then d else b) = true := by
      by_cases hdb : pdLe b d = true
      · simp [hdb]
      · simp [hdb, pdLe_refl]
    have hhead :=
      ih (if pdLe b d then d else b) _
        (List.mem_cons_self (if pdLe b d then d else b) l)
    rcases List.mem_cons.mp hx with rfl | hx'
    · exact pdLe_trans hmd hhead
    rcases List.mem_cons.mp hx' with rfl | hx''
    · exact pdLe_trans hmb hhead
    · exact ih (if pdLe b d then d else b) x (List.mem_cons_of_mem _ hx'')

lemma pyMinD_spec (l : List PyDateTime) (h : l ≠ []) :
    ∃ lo, pyMinD l = some lo ∧ lo ∈ l ∧ ∀ x ∈ l, pdLe lo x = true := by
  cases l with
  | nil => exact absurd rfl h
  | cons d rest =>
    exact ⟨_, rfl, foldlMin_mem rest d, fun x hx => foldlMin_le rest d x hx⟩

lemma pyMaxD_spec (l : List PyDateTime) (h : l ≠ []) :
    ∃ hi, pyMaxD l = some hi ∧ hi ∈ l ∧ ∀ x ∈ l, pdLe x hi = true := by
  cases l with
  | nil => exact absurd rfl h
  | cons d rest =>
    exact ⟨_, rfl, foldlMax_mem rest d, fun x hx => foldlMax_ge rest d x hx⟩

/-- C2: write_ofx writes nothing for an empty journal; for a non-empty
journal with a non-empty filtered subset it emits exactly the non-zero,
in-window transactions, sorted by fitid, with DTSTART and DTEND the
minimum and maximum transaction dates of the subset and the footer
balance the sum of its amounts. -/
theorem C2_write_ofx (j : Journal) (upper : Bool) (sd ed : Option PyDateTime) :
    (j.txns = [] → write_ofx j upper sd ed = .noFile)
    ∧ (j.txns ≠ [] → j.txns.filter (writeFilter sd ed) ≠ [] →
      ∃ doc lo hi,
        write_ofx j upper sd ed = .wrote doc
        ∧ doc.blocks
            = (List.insertionSort fitidLe
                (j.txns.filter (writeFilter sd ed))).map (mkBlock upper)
        ∧ List.Pairwise (fun a b : TxnBlock => a.fitid ≤ b.fitid) doc.blocks
        ∧ doc.blocks.Perm
            ((j.txns.filter (writeFilter sd ed)).map (mkBlock upper))
        ∧ doc.firstdate = ofxdatetime lo
        ∧ doc.lastdate = ofxdatetime hi
        ∧ lo ∈ (j.txns.filter (writeFilter sd ed)).map (fun t => t.date)
        ∧ hi ∈ (j.txns.filter (writeFilter sd ed)).map (fun t => t.date)
        ∧ (∀ t ∈ j.txns, writeFilter sd ed t = true →
            pdLe lo t.date = true ∧ pdLe t.date hi = true)
        ∧ doc.totalamount
            = ((j.txns.filter (writeFilter sd ed)).map
                (fun t => t.amount)).sum) := by
  constructor
  · intro he
    unfold write_ofx
    rw [if_pos]
    rw [he]
    simp
  · intro hne hf
    have hlen : ¬ j.txns.length < 1 := by
      simp only [Nat.lt_one_iff, List.length_eq_zero]
      exact hne
    have hperm : List.Perm
        (List.insertionSort fitidLe (j.txns.filter (writeFilter sd ed)))
        (j.txns.filter (writeFilter sd ed)) :=
      List.perm_insertionSort fitidLe _
    have hSne : (List.insertionSort fitidLe
        (j.txns.filter (writeFilter sd ed))).map (fun t => t.date) ≠ [] := by
      intro hnil
      rw [List.map_eq_nil_iff] at hnil
      have hp := hperm
      rw [hnil] at hp
      exact hf hp.symm.eq_nil
    obtain ⟨lo, hlo, hlomem, hlole⟩ := pyMinD_spec _ hSne
    obtain ⟨hi, hhi, hhimem, hhige⟩ := pyMaxD_spec _ hSne
    have hw : write_ofx j upper sd ed = .wrote
        { dtserver := ofxdatetime j.datetime, cardname := j.cardname,
          cardnumber := j.cardnumber, firstdate := ofxdatetime lo,
          lastdate := ofxdatetime hi,
          blocks := (List.insertionSort fitidLe
            (j.txns.filter (writeFilter sd ed))).map (mkBlock upper),
          totalamount := ((List.insertionSort fitidLe
            (j.txns.filter (writeFilter sd ed))).map
              (fun t => t.amount)).sum } := by
      unfold write_ofx
      rw [if_neg hlen]
      dsimp only
      rw [hlo, hhi]
    have hsorted : List.Pairwise fitidLe
        (List.insertionSort fitidLe (j.txns.filter (writeFilter sd ed))) :=
      List.sorted_insertionSort fitidLe _
    have hmemtr : ∀ x : PyDateTime,
        x ∈ (List.insertionSort fitidLe
            (j.txns.filter (writeFilter sd ed))).map (fun t => t.date)
          ↔ x ∈ (j.txns.filter (writeFilter sd ed)).map (fun t => t.date) :=
      fun x => (hperm.map (fun t => t.date)).mem_iff
    refine ⟨_, lo, hi, hw, rfl, ?_, ?_, rfl, rfl, ?_, ?_, ?_, ?_⟩
    · exact (List.pairwise_map).mpr hsorted
    · exact hperm.map (mkBlock upper)
    · exact (hmemtr lo).mp hlomem
    · exact (hmemtr hi).mp hhimem
    · intro t ht hfil
      have htF : t ∈ j.txns.filter (writeFilter sd ed) :=
        List.mem_filter.mpr ⟨ht, hfil⟩
      have hdate : t.date ∈ (List.insertionSort fitidLe
          (j.txns.filter (writeFilter sd ed))).map (fun t => t.date) :=
        (hmemtr t.date).mpr (List.mem_map_of_mem (fun t => t.date) htF)
      exact ⟨hlole t.date hdate, hhige t.date hdate⟩
    · exact (hperm.map (fun t => t.amount)).sum_eq

/-- C2 witness: the two-transaction journal from the specification gives
DTSTART 20230105..., DTEND 20230107..., and balance 500. -/
theorem C2_write_ofx_witness :
    write_ofx exJournal false none none = .wrote exDoc
    ∧ exDoc.firstdate = "20230105000000"
    ∧ exDoc.lastdate = "20230107000000"
    ∧ exDoc.totalamount = 500
    ∧ exDoc.blocks = [mkBlock false exT1, mkBlock false exT2] := by
  obtain ⟨doc, lo, hi, hw, hbl, _, _, _, _, _, _, _, _⟩ :=
    (C2_write_ofx exJournal false none none).2 (by decide) (by decide)
  have hcalc : write_ofx exJournal false none none = .wrote exDoc := by decide
  exact ⟨hw.symm.trans hcalc ▸ hcalc, by decide, by decide, by decide, by decide⟩

/-! ## Claim C3: reconciliation search -/

lemma chargeEval_ok_of_okB (ch : Charge) (h : chargeEvalOkB ch = true) :
    ∃ cd ca, chargeEval ch = .ok (cd, ca) := by
  unfold chargeEvalOkB at h
  cases he : chargeEval ch with
  | ok v => exact ⟨v.1, v.2, by simp [he]⟩
  | error e => rw [he] at h; simp at h

lemma searchCharges_spec (oid : String) (batches : List AmazonOrderBatch)
    (win : Option (Nat × Nat)) (amt : Option Int) :
    ∀ l : List (Nat × Charge),
      (∀ p ∈ l, chargeEvalOkB p.2 = true) →
      (∀ p ∈ l, p.1 < batches.length) →
      ∃ L, searchCharges oid batches win amt l = .ok L ∧
        ∀ pr : String × String, pr ∈ L ↔
          ∃ p ∈ l, (∃ cd ca, chargeEval p.2 = .ok (cd, ca)
              ∧ chargeHit win amt cd ca = true)
            ∧ ∃ b, batches.get? p.1 = some b
              ∧ pr = (oid, batchOmitted b) := by
  intro l
  induction l with
  | nil => exact fun _ _ => ⟨[], rfl, by simp⟩
  | cons p rest ih =>
    intro hok hlt
    obtain ⟨i, ch⟩ := p
    have hce : chargeEvalOkB ch = true := hok (i, ch) (List.mem_cons_self _ _)
    obtain ⟨cd, ca, hcd⟩ := chargeEval_ok_of_okB ch hce
    obtain ⟨L, hL, hiff⟩ := ih (fun q hq => hok q (List.mem_cons_of_mem _ hq))
      (fun q hq => hlt q (List.mem_cons_of_mem _ hq))
    by_cases hhit : chargeHit win amt cd ca = true
    · have hblt : i < batches.length := hlt (i, ch) (List.mem_cons_self _ _)
      obtain ⟨b, hb⟩ : ∃ b, batches.get? i = some b :=
        ⟨batches[i], by
          rw [List.get?_eq_getElem?]
          exact List.getElem?_eq_getElem hblt⟩
      refine ⟨(oid, batchOmitted b) :: L, ?_, ?_⟩
      · unfold searchCharges
        rw [hcd]
        simp only [hhit, if_true, hb, hL]
      · intro pr
        constructor
        · intro hpr
          rcases List.mem_cons.mp hpr with rfl | hpr'
          · exact ⟨(i, ch), List.mem_cons_self _ _, ⟨cd, ca, hcd, hhit⟩,
              b, hb, rfl⟩
          · obtain ⟨q, hq, hqhit, b', hb', hpr''⟩ := (hiff pr).mp hpr'
            exact ⟨q, List.mem_cons_of_mem _ hq, hqhit, b', hb', hpr''⟩
        · rintro ⟨q, hq, ⟨cd', ca', hcd', hhit'⟩, b', hb', rfl⟩
          rcases List.mem_cons.mp hq with heq | hq'
          · rw [heq] at hcd'
            rw [hcd] at hcd'
            rw [heq] at hb'
            rw [hb] at hb'
            injection hb' with hb''
            rw [← hb'']
            exact List.mem_cons_self _ _
          · exact List.mem_cons_of_mem _
              ((hiff _).mpr ⟨q, hq', ⟨cd', ca', hcd', hhit'⟩, b', hb', rfl⟩)
    · refine ⟨L, ?_, ?_⟩
      · unfold searchCharges
        rw [hcd]
        simp only [hhit, if_false]
        exact hL
      · intro pr
        rw [hiff pr]
        constructor
        · rintro ⟨q, hq, hrest⟩
          exact ⟨q, List.mem_cons_of_mem _ hq, hrest⟩
        · rintro ⟨q, hq, ⟨cd', ca', hcd', hhit'⟩, hrest⟩
          rcases List.mem_cons.mp hq with heq | hq'
          · rw [heq] at hcd'
            rw [hcd] at hcd'
            injection hcd' with hcd''
            injection hcd'' with h1 h2
            rw [← h1, ← h2] at hhit'
            exact absurd hhit' hhit
          · exact ⟨q, hq', ⟨cd', ca', hcd', hhit'⟩, hrest⟩

lemma searchOrders_spec (win : Option (Nat × Nat)) (amt : Option Int) :
    ∀ az : AmazonJournal, (∀ o ∈ az, orderSearchableB o = true) →
      ∃ L, searchOrders win amt az = .ok L ∧
        ∀ pr : String × String, pr ∈ L ↔
          ∃ o ∈ az, ∃ p ∈ o.charges.enum,
            (∃ cd ca, chargeEval p.2 = .ok (cd, ca)
              ∧ chargeHit win amt cd ca = true)
            ∧ ∃ b, o.batches.get? p.1 = some b
              ∧ pr = (o.orderid, batchOmitted b) := by
  intro az
  induction az with
  | nil => exact fun _ => ⟨[], rfl, by simp⟩
  | cons o rest ih =>
    intro hs
    have hso : orderSearchableB o = true := hs o (List.mem_cons_self _ _)
    have hlen : o.charges.length ≤ o.batches.length := by
      unfold orderSearchableB at hso
      exact of_decide_eq_true (Bool.and_elim_left hso)
    have hall : ∀ ch ∈ o.charges, chargeEvalOkB ch = true := by
      unfold orderSearchableB at hso
      exact fun ch hch =>
        List.all_eq_true.mp (Bool.and_elim_right hso) ch hch
    have henumOk : ∀ p ∈ o.charges.enum, chargeEvalOkB p.2 = true := by
      intro p hp
      obtain ⟨i, ch⟩ := p
      have := List.mk_mem_enum_iff_getElem?.mp hp
      exact hall ch (List.getElem?_mem this)
    have henumLt : ∀ p ∈ o.charges.enum, p.1 < o.batches.length := by
      intro p hp
      obtain ⟨i, ch⟩ := p
      have := List.mk_mem_enum_iff_getElem?.mp hp
      have hi : i < o.charges.length := (List.getElem?_eq_some.mp this).1
      omega
    obtain ⟨L1, hL1, hiff1⟩ :=
      searchCharges_spec o.orderid o.batches win amt o.charges.enum
        henumOk henumLt
    obtain ⟨L2, hL2, hiff2⟩ := ih (fun q hq => hs q (List.mem_cons_of_mem _ hq))
    refine ⟨L1 ++ L2, ?_, ?_⟩
    · unfold searchOrders AmazonOrder.searchOne
      rw [hL1, hL2]
    · intro pr
      rw [List.mem_append, hiff1 pr, hiff2 pr]
      constructor
      · rintro (⟨p, hp, hrest⟩ | ⟨o', ho', hrest⟩)
        · exact ⟨o, List.mem_cons_self _ _, p, hp, hrest⟩
        · exact ⟨o', List.mem_cons_of_mem _ ho', hrest⟩
      · rintro ⟨o', ho', p, hp, hrest⟩
        rcases List.mem_cons.mp ho' with heq | ho''
        · subst heq
          exact Or.inl ⟨p, hp, hrest⟩
        · exact Or.inr ⟨o', ho'', p, hp, hrest⟩

/-- C3: search over a plain date d and amount a returns exactly the
(orderId, displayText) pairs of charge events whose date lies in the
inclusive window from d minus one day to d plus two days and whose amount
equals a; and the reader calls search with the sign-flipped transaction
amount for rows whose description is exactly "AMAZON.CO.JP", rewriting
memo only when exactly one pair is returned. -/
theorem C3_search (az : AmazonJournal) (d : Nat) (a : Int)
    (h : ∀ o ∈ az, orderSearchableB o = true) :
    (∃ L, az.search (.single d) (some a) = .ok L ∧
      ∀ pr : String × String, pr ∈ L ↔
        ∃ o ∈ az, ∃ p ∈ o.charges.enum,
          (∃ cd ca, chargeEval p.2 = .ok (cd, ca)
            ∧ (d - 1 ≤ cd ∧ cd ≤ d + 2) ∧ a = ca)
          ∧ ∃ b, o.batches.get? p.1 = some b
            ∧ pr = (o.orderid, batchOmitted b))
    ∧ (∀ (az' : AmazonJournal) (date : PyDateTime) (amount : Int)
        (memo : String) (p : String × String),
        az'.search (.single date.dateOrdinal) (some (-amount)) = .ok [p] →
        amazonFix (some az') date amount "AMAZON.CO.JP" memo = .ok p.2)
    ∧ (∀ (az' : AmazonJournal) (date : PyDateTime) (amount : Int)
        (memo : String) (L : List (String × String)),
        az'.search (.single date.dateOrdinal) (some (-amount)) = .ok L →
        L.length ≠ 1 →
        amazonFix (some az') date amount "AMAZON.CO.JP" memo = .ok memo)
    ∧ (∀ (az' : AmazonJournal) (date : PyDateTime) (amount : Int)
        (memo desc : String), desc ≠ "AMAZON.CO.JP" →
        amazonFix (some az') date amount desc memo = .ok memo) := by
  refine ⟨?_, ?_, ?_, ?_⟩
  · obtain ⟨L, hL, hiff⟩ := searchOrders_spec (some (d - 1, d + 2)) (some a) az h
    refine ⟨L, hL, ?_⟩
    intro pr
    rw [hiff pr]
    constructor
    · rintro ⟨o, ho, p, hp, ⟨cd, ca, hcd, hhit⟩, hrest⟩
      refine ⟨o, ho, p, hp, ⟨cd, ca, hcd, ?_⟩, hrest⟩
      simpa [chargeHit] using hhit
    · rintro ⟨o, ho, p, hp, ⟨cd, ca, hcd, hwin, heq⟩, hrest⟩
      refine ⟨o, ho, p, hp, ⟨cd, ca, hcd, ?_⟩, hrest⟩
      simp [chargeHit, hwin.1, hwin.2, heq]
  · intro az' date amount memo p hsearch
    simp only [amazonFix]
    rw [if_pos trivial, hsearch]
  · intro az' date amount memo L hsearch hlen
    simp only [amazonFix]
    rw [if_pos trivial, hsearch]
    match L, hlen with
    | [], _ => rfl
    | [x], hlen => exact absurd rfl hlen
    | x :: y :: rest, _ => rfl
  · intro az' date amount memo desc hdesc
    simp only [amazonFix]
    rw [if_neg hdesc]

/-- C3 witness: an index holding one order with a single 1200-yen charge
dated 2023-03-11, searched from 2023-03-10. -/
theorem C3_search_witness :
    c3az.search (.single c3date.dateOrdinal) (some 1200)
      = .ok [("250-1", "Widget")]
    ∧ amazonFix (some c3az) c3date (-1200) "AMAZON.CO.JP" "orig"
        = .ok "Widget" := by
  have h := C3_search c3az c3date.dateOrdinal 1200 (by decide)
  exact ⟨by decide,
    h.2.1 c3az c3date (-1200) "orig" ("250-1", "Widget") (by decide)⟩

/-! ## Claim C4: fitid sequence -/

lemma processRow_ids (cfg : ReadCfg) (df : String) (prev : PyDateTime)
    (i : Nat) (line : List String) (t : Transaction)
    (h : processRow cfg df prev i line = .ok (some t)) :
    t.objId = i ∧ t.fitid = i := by
  unfold processRow at h
  cases hc : processRowCore cfg df prev line with
  | error e => rw [hc] at h; cases h
  | ok o =>
    rw [hc] at h
    cases o with
    | none => simp at h
    | some u =>
      simp only [Except.ok.injEq, Option.some.injEq] at h
      subst h
      exact ⟨rfl, rfl⟩

lemma addT_append (acc : List Transaction) (t : Transaction)
    (h : ∀ u ∈ acc, u.objId ≠ t.objId) :
    Journal.addT acc t = acc ++ [t] := by
  unfold Journal.addT
  rw [if_neg]
  simp only [List.any_eq_true, decide_eq_true_eq, not_exists]
  intro u
  intro hc
  exact absurd hc.2 (h u hc.1)

lemma readLoop_fitid_inv (cfg : ReadCfg) (df : String) :
    ∀ (lines : List (List String)) (i : Nat) (prev : PyDateTime)
      (acc ts : List Transaction),
      readLoop cfg df i prev acc lines = .ok ts →
      (∀ u ∈ acc, u.objId = u.fitid ∧ u.fitid < i) →
      List.Chain' (fun a b => a.fitid < b.fitid) acc →
      (∀ u ∈ ts, u.objId = u.fitid ∧ u.fitid < i + lines.length)
        ∧ List.Chain' (fun a b => a.fitid < b.fitid) ts := by
  intro lines
  induction lines with
  | nil =>
    intro i prev acc ts h hinv hch
    unfold readLoop at h
    injection h with h
    subst h
    exact ⟨fun u hu => ⟨(hinv u hu).1, by have := (hinv u hu).2; omega⟩, hch⟩
  | cons line rest ih =>
    intro i prev acc ts h hinv hch
    unfold readLoop at h
    cases hp : processRow cfg df prev i line with
    | error e => rw [hp] at h; cases h
    | ok o =>
      rw [hp] at h
      cases o with
      | none =>
        have := ih (i + 1) prev acc ts h
          (fun u hu => ⟨(hinv u hu).1, by have := (hinv u hu).2; omega⟩) hch
        refine ⟨fun u hu => ⟨(this.1 u hu).1, ?_⟩, this.2⟩
        have := (this.1 u hu).2
        simp only [List.length_cons]
        omega
      | some t =>
        obtain ⟨hoid, hfit⟩ := processRow_ids cfg df prev i line t hp
        have hadd : Journal.addT acc t = acc ++ [t] := by
          apply addT_append
          intro u hu
          rw [hoid, (hinv u hu).1]
          exact Nat.ne_of_lt (hinv u hu).2
        have h' : readLoop cfg df (i + 1) t.date (Journal.addT acc t) rest
            = .ok ts := h
        rw [hadd] at h'
        have hinv' : ∀ u ∈ acc ++ [t], u.objId = u.fitid ∧ u.fitid < i + 1 := by
          intro u hu
          rcases List.mem_append.mp hu with hu | hu
          · exact ⟨(hinv u hu).1, by have := (hinv u hu).2; omega⟩
          · rcases List.mem_singleton.mp hu with rfl
            exact ⟨hoid.trans hfit.symm, by omega⟩
        have hch' : List.Chain' (fun a b => a.fitid < b.fitid) (acc ++ [t]) := by
          rw [List.chain'_append]
          refine ⟨hch, List.chain'_singleton _, ?_⟩
          intro x hx y hy
          obtain ⟨hxl, rfl⟩ := List.mem_getLast?_eq_getLast hx
          simp only [List.head?_cons, Option.mem_def, Option.some.injEq] at hy
          subst hy
          rw [hfit]
          exact (hinv _ (List.getLast_mem hxl)).2
        have := ih (i + 1) t.date (acc ++ [t]) ts h' hinv' hch'
        refine ⟨fun u hu => ⟨(this.1 u hu).1, ?_⟩, this.2⟩
        have := (this.1 u hu).2
        simp only [List.length_cons]
        omega

/-- C4 counterexample: a skipped row consumes a fitid — a three-row file
whose middle row has a malformed date yields fitids [0, 2], which is not
dense (no gap would mean each fitid is its predecessor plus one). -/
theorem C4_counterexample :
    (readRows c4cfg c4lines).map (fun ts => ts.map (fun t => t.fitid))
      = .ok [0, 2]
    ∧ denseB [0, 2] = false := by
  decide

/-- C4 amended: within a single file read, the fitid of every accepted
transaction is the 0-based index of its source row, so the fitid sequence
is strictly increasing in source-row order and unique, and bounded by the
number of rows — but it has a gap at every skipped row, so it is dense
only when no rows are skipped. -/
theorem C4_amended (cfg : ReadCfg) (lines : List (List String))
    (ts : List Transaction) (h : readRows cfg lines = .ok ts) :
    List.Chain' (fun a b : Nat => a < b) (ts.map (fun t => t.fitid))
    ∧ (ts.map (fun t => t.fitid)).Nodup
    ∧ ∀ t ∈ ts, t.fitid < lines.length := by
  unfold readRows at h
  cases hdf : datefield? cfg.fields with
  | none => rw [hdf] at h; cases h
  | some df =>
    rw [hdf] at h
    obtain ⟨hbound, hch⟩ :=
      readLoop_fitid_inv cfg df lines 0 { year := 2000, month := 1, day := 1 }
        [] ts h (by simp) (by simp)
    have hchm : List.Chain' (fun a b : Nat => a < b)
        (ts.map (fun t => t.fitid)) :=
      (List.chain'_map (fun t : Transaction => t.fitid)).mpr hch
    refine ⟨hchm, ?_, ?_⟩
    · exact (List.chain'_iff_pairwise.mp hchm).nodup
    · intro t ht
      have := (hbound t ht).2
      omega

/-- C4 witness: the amended statement on the three-row fixture. -/
theorem C4_amended_witness :
    List.Chain' (fun a b : Nat => a < b) (c4out.map (fun t => t.fitid))
    ∧ (c4out.map (fun t => t.fitid)).Nodup
    ∧ ∀ t ∈ c4out, t.fitid < c4lines.length :=
  C4_amended c4cfg c4lines c4out (by decide)

/-! ## Claim C8 amended: omit width contract -/

lemma charwidthSrc_le_two (c : Char) : charwidthSrc c ≤ 2 := by
  unfold charwidthSrc
  cases eaw c <;> simp

lemma charwidthSrc_dot : charwidthSrc '.' = 1 := by decide

lemma growTail_inv (cw : List Nat) (m : Nat) :
    ∀ fuel k, sumLast cw k ≤ m → sumLast cw (growTail cw m k fuel) ≤ m := by
  intro fuel
  induction fuel with
  | zero => intro k h; exact h
  | succ n ih =>
    intro k h
    unfold growTail
    split
    · exact ih (k + 1) (by assumption)
    · exact h

lemma growHead_inv (cw : List Nat) (m : Nat) :
    ∀ fuel k, sumFirst cw k ≤ m → sumFirst cw (growHead cw m k fuel) ≤ m := by
  intro fuel
  induction fuel with
  | zero => intro k h; exact h
  | succ n ih =>
    intro k h
    unfold growHead
    split
    · exact ih (k + 1) (by assumption)
    · exact h

lemma short_sum_le (l : List Nat) (hl : l.length ≤ 1)
    (h2 : ∀ x ∈ l, x ≤ 2) : l.sum ≤ 2 := by
  cases l with
  | nil => simp
  | cons x t =>
    cases t with
    | nil => simpa using h2 x (by simp)
    | cons y t2 => simp at hl

lemma sumLast_one_le (cw : List Nat) (h2 : ∀ x ∈ cw, x ≤ 2) :
    sumLast cw 1 ≤ 2 := by
  unfold sumLast
  apply short_sum_le
  · rw [List.length_drop]
    omega
  · intro x hx
    exact h2 x (List.drop_subset _ cw hx)

lemma sumFirst_one_le (cw : List Nat) (h2 : ∀ x ∈ cw, x ≤ 2) :
    sumFirst cw 1 ≤ 2 := by
  unfold sumFirst
  apply short_sum_le
  · rw [List.length_take]
    omega
  · intro x hx
    exact h2 x (List.take_subset _ cw hx)

lemma omitCore_id (s : String) (cw : List Nat) (hle : cw.sum ≤ 40) :
    omitCore s 40 cw = s := by
  unfold omitCore
  rw [if_pos hle]

lemma omitCore_width (s : String) (cw : List Nat)
    (hcw : cw = s.data.map charwidthSrc) (h40 : 40 < cw.sum) :
    srcWidth (omitCore s 40 cw) = 40 := by
  have h2 : ∀ x ∈ cw, x ≤ 2 := by
    rw [hcw]
    intro x hx
    obtain ⟨c, _, rfl⟩ := List.mem_map.mp hx
    exact charwidthSrc_le_two c
  have hlen : cw.length = s.data.length := by
    rw [hcw]
    exact List.length_map _ _
  set k := growTail cw ((40 - 2) / 2) 1 cw.length with hk
  set tailw := sumLast cw k with htailw
  set h := growHead cw (40 - tailw - 2) 1 cw.length with hh
  set headw := sumFirst cw h with hheadw
  have htail_le : tailw ≤ 19 := by
    rw [htailw, hk]
    have h19 : (40 - 2) / 2 = 19 := by norm_num
    rw [h19]
    exact growTail_inv cw 19 cw.length 1
      (le_trans (sumLast_one_le cw h2) (by omega))
  have hhead_le : headw ≤ 40 - tailw - 2 := by
    rw [hheadw, hh]
    exact growHead_inv cw (40 - tailw - 2) cw.length 1
      (le_trans (sumFirst_one_le cw h2) (by omega))
  have hne : ¬ cw.sum ≤ 40 := by omega
  have heq : omitCore s 40 cw
      = String.mk (s.data.take h ++ List.replicate (40 - headw - tailw) '.'
        ++ s.data.drop (s.data.length - k)) := by
    unfold omitCore
    rw [if_neg hne]
  rw [heq]
  unfold srcWidth
  simp only [List.map_append, List.sum_append, List.map_replicate,
    List.sum_replicate, smul_eq_mul, charwidthSrc_dot, mul_one]
  have h1 : (s.data.take h).map charwidthSrc = cw.take h := by
    rw [List.map_take, ← hcw]
  have h2' : (s.data.drop (s.data.length - k)).map charwidthSrc
      = cw.drop (cw.length - k) := by
    rw [List.map_drop, ← hcw, ← hlen]
  rw [h1, h2']
  have e1 : (cw.take h).sum = headw := by rw [hheadw]; rfl
  have e2 : (cw.drop (cw.length - k)).sum = tailw := by rw [htailw]; rfl
  rw [e1, e2]
  omega

/-- C8 amended: with the source width unit (Wide, Fullwidth AND Ambiguous
count 2 columns, everything else 1) and for strings whose per-character
widths the internal transformation of omit (the NFKC normalization with
the kana fixes, then the ideographic-space replacement) leaves unchanged:
omit(s, 40) returns s unchanged when its width is at most 40, and returns
a string of width exactly 40 when the width exceeds 40.  Strings whose
widths that transformation alters (halfwidth katakana, which NFKC widens;
ideographic spaces, measured as narrow spaces but spliced back
unreplaced) violate both parts, as the counterexample shows. -/
theorem C8_amended (s : String)
    (hw : ((normalize s).data.map (fun c => if c = '　' then ' ' else c)).map
        charwidthSrc = s.data.map charwidthSrc) :
    (srcWidth s ≤ 40 → omitW s 40 = s)
    ∧ (40 < srcWidth s → srcWidth (omitW s 40) = 40) := by
  have hbridge : omitW s 40 = omitCore s 40 (s.data.map charwidthSrc) := by
    unfold omitW
    rw [hw]
  constructor
  · intro hle
    rw [hbridge]
    exact omitCore_id s _ hle
  · intro hgt
    rw [hbridge]
    exact omitCore_width s _ rfl hgt

/-- C8 witness: thirty hiragana are untouched by the internal
normalization, have width 60, and truncate to width exactly 40. -/
theorem C8_amended_witness :
    srcWidth hira30 = 60 ∧ srcWidth (omitW hira30 40) = 40 := by
  refine ⟨by decide, ?_⟩
  exact (C8_amended hira30 (by decide)).2 (by decide)

/-! ## Claim C5: Journal membership uniqueness -/

/-- C5 counterexample: two Transaction objects with identical attribute
tuples but distinct identities are BOTH kept by set.add — the claim's
"leaves a single record" fails, because Transaction inherits
object.__eq__. -/
theorem C5_counterexample :
    c5t1.sameFields c5t2 = true
    ∧ Journal.addT (Journal.addT [] c5t1) c5t2 = [c5t1, c5t2]
    ∧ (Journal.addT (Journal.addT [] c5t1) c5t2).length ≠ 1 := by
  decide

/-- C5 amended: Journal membership uniqueness is determined by object
identity, not value equality — two distinct Transaction objects with
bit-identical attribute tuples both remain in the Journal, and only
re-inserting the very same object leaves a single record. -/
theorem C5_amended (t u : Transaction) (l : List Transaction)
    (h : t.objId ≠ u.objId) :
    Journal.addT (Journal.addT [] t) u = [t, u]
    ∧ Journal.addT (Journal.addT l t) t = Journal.addT l t := by
  constructor
  · simp [Journal.addT, h]
  · unfold Journal.addT
    by_cases hmem : l.any (fun u' => u'.objId = t.objId) = true
    · simp [hmem]
    · simp only [Bool.not_eq_true] at hmem
      simp [hmem, List.any_append]

/-- C5 witness: the amended statement evaluated on concrete objects. -/
theorem C5_amended_witness :
    Journal.addT (Journal.addT [] c5t1) c5t2 = [c5t1, c5t2]
    ∧ Journal.addT (Journal.addT [c5t2] c5t1) c5t1
        = Journal.addT [c5t2] c5t1 :=
  C5_amended c5t1 c5t2 [c5t2] (by decide)

/-! ## Claim C6: user substitution table -/

/-- C6: the substitution loop has no effect — line 430 evaluates
t.memo.replace(k, v) and discards the result, so an accepted row whose
memo is "FOO" keeps memo "FOO" under the table FOO to BAR, while the
specified behavior would have produced "BAR". -/
theorem C6_code_eval :
    c6cfg.subst = some [("FOO", "BAR")]
    ∧ (readRows c6cfg c6lines).map (fun ts => ts.map (fun t => t.memo))
        = .ok ["FOO"]
    ∧ substSpecified [("FOO", "BAR")] "FOO" = "BAR"
    ∧ ("FOO" : String) ≠ "BAR" := by
  decide

/-! ## Claim C7: optional (suffixed) field names -/

/-- C7: a mapping that declares date? stores the literal key "date?", but
the row helper looks up the stripped name "date", so every row — empty
date cell or not — raises KeyError instead of using the previous row's
date. -/
theorem C7_code_eval :
    c7cfg.fields.find? "date" = none
    ∧ c7cfg.fields.find? "date?" = some (.one 0)
    ∧ readRows c7cfg [["", "S", "100"]] = .error .keyError
    ∧ readRows c7cfg [["2023/01/05", "S", "100"]] = .error .keyError := by
  decide

/-! ## Claim C8 counterexample -/

/-- C8 counterexample: with the claim's width unit (Wide/Fullwidth 2, all
else 1), 21 Greek alphas have width 21 <= 40 yet omit truncates them (the
source counts Ambiguous as 2); 25 halfwidth katakana have width 25 <= 40
yet omit truncates them (NFKC widens each to a Wide fullwidth katakana
before widths are measured); and 41 ideographic spaces exceed the budget
yet the truncated result has width 78, not 40 (they are measured as
narrow spaces but the slices keep the original characters). -/
theorem C8_counterexample :
    (claimWidth alpha21 ≤ 40 ∧ omitW alpha21 40 ≠ alpha21)
    ∧ (claimWidth kata25 ≤ 40 ∧ omitW kata25 40 ≠ kata25)
    ∧ (40 < claimWidth ideo41 ∧ claimWidth (omitW ideo41 40) ≠ 40) := by
  decide

/-! ## Claim C9: timezone tagging of transaction dates -/

/-- C9: with tzinfo configured, the read transaction's date still carries
no timezone — line 396 discards the result of datetime.replace — and its
stamp renders bare; only a date that actually had the tag attached would
render with the bracketed offset-and-zone suffix. -/
theorem C9_code_eval :
    c9cfg.tzinfo = some jst
    ∧ (readRows c9cfg c9lines).map
        (fun ts => ts.map (fun t => (t.date.tz, ofxdatetime t.date)))
        = .ok [(none, "20230105000000")]
    ∧ ofxdatetime { year := 2023, month := 1, day := 5, tz := some jst }
        = "20230105000000[+9.00:JST]" := by
  decide

/-! ## Claim C10: all transactions filtered out -/

/-- C10: for a non-empty journal whose every transaction fails the output
filter, write_ofx raises ValueError (min of an empty sequence) instead of
writing a file or silently returning. -/
theorem C10_empty_filter (j : Journal) (upper : Bool)
    (sd ed : Option PyDateTime) (hne : j.txns ≠ [])
    (hall : j.txns.filter (writeFilter sd ed) = []) :
    write_ofx j upper sd ed = .err .valueError := by
  unfold write_ofx
  rw [if_neg (by simp [Nat.lt_one_iff, List.length_eq_zero, hne])]
  simp [hall, List.insertionSort, pyMinD]

/-- C10 witness: a journal holding one zero-amount transaction. -/
theorem C10_empty_filter_witness :
    write_ofx zeroJournal false none none = .err .valueError :=
  C10_empty_filter zeroJournal false none none (by decide) (by decide)

end Csv2Ofx
